import Mathlib

/-!
Shallow embedding of the krnl device runtime (src/crates/krnl/src/device.rs and
src/crates/krnl-core/src/buffer.rs) for verifying the specification claims.

Machine integers are modelled as `Nat` with explicit truncation where the code
truncates; Rust panics are modelled as `Option.none` or an `Except.error`
carrying a panic marker; `bail!` errors are `Except.error` with the message the
code formats.  The SPIR-V module is embedded in its parsed (rspirv data
representation) form: per the spec's GPU IR contract, `load_words` / `assemble`
are lossless, so they are identities of the model.
-/

/-- Modelled from the spec: the scalar numeric type registry (`scalar.rs` is not
under src/).  A closed enum of primitive numeric kinds with known byte widths. -/
inductive ScalarType where
  | u8 | i8 | u16 | i16 | f16 | bf16 | u32 | i32 | f32 | u64 | i64 | f64
  deriving DecidableEq, Repr

/-- Modelled from the spec: byte width of each scalar kind. -/
def ScalarType.size : ScalarType → Nat
  | .u8 => 1 | .i8 => 1
  | .u16 => 2 | .i16 => 2 | .f16 => 2 | .bf16 => 2
  | .u32 => 4 | .i32 => 4 | .f32 => 4
  | .u64 => 8 | .i64 => 8 | .f64 => 8

/-- Modelled from the spec: `ScalarElem` is a tagged scalar value.  Each variant
carries the value's bit pattern as a `Nat` (floating-point variants carry raw
bits; `as_bytes` only ever exposes the little-endian byte representation). -/
inductive ScalarElem where
  | U8 (bits : Nat) | I8 (bits : Nat)
  | U16 (bits : Nat) | I16 (bits : Nat)
  | F16 (bits : Nat) | BF16 (bits : Nat)
  | U32 (bits : Nat) | I32 (bits : Nat) | F32 (bits : Nat)
  | U64 (bits : Nat) | I64 (bits : Nat) | F64 (bits : Nat)
  deriving DecidableEq, Repr

def ScalarElem.scalar_type : ScalarElem → ScalarType
  | .U8 _ => .u8 | .I8 _ => .i8
  | .U16 _ => .u16 | .I16 _ => .i16
  | .F16 _ => .f16 | .BF16 _ => .bf16
  | .U32 _ => .u32 | .I32 _ => .i32 | .F32 _ => .f32
  | .U64 _ => .u64 | .I64 _ => .i64 | .F64 _ => .f64

def ScalarElem.bits : ScalarElem → Nat
  | .U8 x => x | .I8 x => x
  | .U16 x => x | .I16 x => x
  | .F16 x => x | .BF16 x => x
  | .U32 x => x | .I32 x => x | .F32 x => x
  | .U64 x => x | .I64 x => x | .F64 x => x

/-- Little-endian byte list of width `w` for the value `x`. -/
def leBytes (w : Nat) (x : Nat) : List Nat :=
  (List.range w).map (fun i => x / 256 ^ i % 256)

/-- Modelled from the spec: `ScalarElem::as_bytes` yields the value's
little-endian representation, `scalar_type().size()` bytes long. -/
def ScalarElem.asBytes (e : ScalarElem) : List Nat :=
  leBytes e.scalar_type.size e.bits

theorem leBytes_length (w x : Nat) : (leBytes w x).length = w := by
  simp [leBytes]

theorem asBytes_length (e : ScalarElem) : e.asBytes.length = e.scalar_type.size := by
  simp [ScalarElem.asBytes, leBytes_length]

/-- `Features` from device.rs lines 343-350: the five capability flags. -/
structure Features where
  shader_int8 : Bool
  shader_int16 : Bool
  shader_int64 : Bool
  shader_float16 : Bool
  shader_float64 : Bool
  deriving DecidableEq, Repr

/-- device.rs `Features::empty`. -/
def Features.empty : Features :=
  { shader_int8 := false, shader_int16 := false, shader_int64 := false
    shader_float16 := false, shader_float64 := false }

/-- device.rs `Features::contains` (lines 397-403). -/
def Features.contains (self other : Features) : Bool :=
  (self.shader_int8 || !other.shader_int8)
    && (self.shader_int16 || !other.shader_int16)
    && (self.shader_int64 || !other.shader_int64)
    && (self.shader_float16 || !other.shader_float16)
    && (self.shader_float64 || !other.shader_float64)

/-- device.rs `Features::union` (lines 404-411). -/
def Features.union (self other : Features) : Features :=
  { shader_int8 := self.shader_int8 || other.shader_int8
    shader_int16 := self.shader_int16 || other.shader_int16
    shader_int64 := self.shader_int64 || other.shader_int64
    shader_float16 := self.shader_float16 || other.shader_float16
    shader_float64 := self.shader_float64 || other.shader_float64 }

/-- device.rs `SpecDesc`. -/
structure SpecDesc where
  name : String
  scalar_type : ScalarType
  thread_dim : Option Nat
  deriving DecidableEq, Repr

/-- device.rs `SliceDesc`. -/
structure SliceDesc where
  name : String
  scalar_type : ScalarType
  mutable : Bool
  item : Bool
  deriving DecidableEq, Repr

/-- device.rs `PushDesc`. -/
structure PushDesc where
  name : String
  scalar_type : ScalarType
  deriving DecidableEq, Repr

/-- rspirv decoration operand; the specializer only inspects `SpecId`. -/
inductive Decoration where
  | SpecId
  | OtherDecoration
  deriving DecidableEq, Repr

/-- rspirv instruction operand, restricted to the kinds the specializer
pattern-matches on. -/
inductive Operand where
  | IdRef (id : Nat)
  | Decoration (d : Decoration)
  | LiteralInt32 (x : Nat)
  | OtherOperand
  deriving DecidableEq, Repr

/-- rspirv opcodes the specializer distinguishes. -/
inductive Op where
  | Decorate
  | SpecConstant
  | OtherOp
  deriving DecidableEq, Repr

/-- rspirv instruction as the specializer sees it. -/
structure Instruction where
  opcode : Op
  result_id : Option Nat
  operands : List Operand
  deriving DecidableEq, Repr

/-- rspirv parsed module restricted to the sections the specializer walks. -/
structure SpirvModule where
  annotationSection : List Instruction
  types_global_values : List Instruction
  deriving DecidableEq, Repr

/-- device.rs `KernelDesc` (lines 486-496).  `spirv` is held in its parsed
form; `load_words`/`assemble` are lossless per the spec's GPU IR contract. -/
structure KernelDesc where
  name : String
  spirv : SpirvModule
  features : Features
  threads : List Nat
  safe : Bool
  spec_descs : List SpecDesc
  slice_descs : List SliceDesc
  push_descs : List PushDesc
  deriving DecidableEq, Repr

/-- The `while size % 4 != 0 { size += 1 }` loop of `push_consts_range`. -/
def padWhile (size : Nat) : Nat :=
  if size % 4 = 0 then size else padWhile (size + 1)
termination_by ((4 - size % 4) % 4)
decreasing_by
  rename_i h
  omega

/-- device.rs `KernelDesc::push_consts_range` (lines 500-507): sum the push
scalar sizes, pad to a multiple of 4 with the while loop, add `2 * 4` bytes per
slice binding, then `try_into::<u32>` (panic modelled as `none`). -/
def KernelDesc.push_consts_range (d : KernelDesc) : Option Nat :=
  let size := (d.push_descs.map (fun x => x.scalar_type.size)).sum
  let size := padWhile size
  let size := size + d.slice_descs.length * 2 * 4
  if size < 2 ^ 32 then some size else none

theorem padWhile_eq (n : Nat) : padWhile n = (n + 3) / 4 * 4 := by
  have h : n % 4 = 0 ∨ n % 4 = 1 ∨ n % 4 = 2 ∨ n % 4 = 3 := by omega
  rcases h with h | h | h | h
  · rw [padWhile.eq_def, if_pos h]
    omega
  · rw [padWhile.eq_def, if_neg (by omega), padWhile.eq_def, if_neg (by omega),
      padWhile.eq_def, if_neg (by omega), padWhile.eq_def, if_pos (by omega)]
    omega
  · rw [padWhile.eq_def, if_neg (by omega), padWhile.eq_def, if_neg (by omega),
      padWhile.eq_def, if_pos (by omega)]
    omega
  · rw [padWhile.eq_def, if_neg (by omega), padWhile.eq_def, if_pos (by omega)]
    omega

/-- C7: `push_consts_range()` equals the sum of the push scalar sizes rounded
up to the next multiple of 4, plus 8 bytes per bound slice.  The hypothesis is
the `try_into::<u32>` success condition. -/
theorem push_consts_range_eq (d : KernelDesc)
    (h : ((d.push_descs.map (fun x => x.scalar_type.size)).sum + 3) / 4 * 4
        + 8 * d.slice_descs.length < 2 ^ 32) :
    d.push_consts_range =
      some (((d.push_descs.map (fun x => x.scalar_type.size)).sum + 3) / 4 * 4
        + 8 * d.slice_descs.length) := by
  have hc : ((d.push_descs.map (fun x => x.scalar_type.size)).sum + 3) / 4 * 4
      + d.slice_descs.length * 2 * 4 < 2 ^ 32 := by omega
  simp only [KernelDesc.push_consts_range, padWhile_eq]
  rw [if_pos hc]
  congr 1
  omega

/-- Witness for C7 at a concrete descriptor. -/
theorem push_consts_range_eq_witness :
    ({ name := "k", spirv := ⟨[], []⟩, features := Features.empty, threads := [1]
       safe := true, spec_descs := [], slice_descs := [⟨"x", .f32, true, true⟩]
       push_descs := [⟨"alpha", .f32⟩, ⟨"n", .u16⟩] } : KernelDesc).push_consts_range
      = some 16 := by
  have h := push_consts_range_eq
    { name := "k", spirv := ⟨[], []⟩, features := Features.empty, threads := [1]
      safe := true, spec_descs := [], slice_descs := [⟨"x", .f32, true, true⟩]
      push_descs := [⟨"alpha", .f32⟩, ⟨"n", .u16⟩] } (by decide)
  simpa using h

/-- C8: `contains` is pointwise implication of flags, `union` is commutative
and idempotent, `empty` has every flag unset, and everything contains
`empty`. -/
theorem features_algebra (A B : Features) :
    (A.contains B = true ↔
      ((B.shader_int8 = true → A.shader_int8 = true)
        ∧ (B.shader_int16 = true → A.shader_int16 = true)
        ∧ (B.shader_int64 = true → A.shader_int64 = true)
        ∧ (B.shader_float16 = true → A.shader_float16 = true)
        ∧ (B.shader_float64 = true → A.shader_float64 = true)))
    ∧ A.union B = B.union A
    ∧ A.union A = A
    ∧ Features.empty.shader_int8 = false
    ∧ Features.empty.shader_int16 = false
    ∧ Features.empty.shader_int64 = false
    ∧ Features.empty.shader_float16 = false
    ∧ Features.empty.shader_float64 = false
    ∧ A.contains Features.empty = true := by
  obtain ⟨a1, a2, a3, a4, a5⟩ := A
  obtain ⟨b1, b2, b3, b4, b5⟩ := B
  revert a1 a2 a3 a4 a5 b1 b2 b3 b4 b5
  decide

/-- Phase 1 of `KernelDesc::specialize` (device.rs lines 514-523): walk the
annotation instructions and record `id -> spec_id` for each
`Decorate(id, SpecId, k)`.  HashMap insertion overwrites, so lookup on the
prepend-accumulated list (most recent first) matches `HashMap::get`. -/
def collectSpecIds (anns : List Instruction) : List (Nat × Nat) :=
  anns.foldl
    (fun m inst =>
      if inst.opcode = Op.Decorate then
        match inst.operands with
        | [Operand.IdRef id, Operand.Decoration Decoration.SpecId,
            Operand.LiteralInt32 specId] => (id, specId) :: m
        | _ => m
      else m)
    []

/-- Value of a little-endian byte list as one machine word. -/
def bytesToWord (bs : List Nat) : Nat :=
  bs.foldr (fun b acc => b + 256 * acc) 0

/-- `bytemuck::bytes_of_mut(a).copy_from_slice(src)` for a 32-bit literal:
panics (`none`) unless `src` is exactly 4 bytes. -/
def copyFromSlice4 (src : List Nat) : Option Nat :=
  if src.length = 4 then some (bytesToWord src) else none

/-- Rust `&v[..i]`: panics (`none`) when `i > v.len()`. -/
def sliceTo (v : List Nat) (i : Nat) : Option (List Nat) :=
  if i ≤ v.length then some (v.take i) else none

/-- Rust `&v[i..]`: panics (`none`) when `i > v.len()`. -/
def sliceFrom (v : List Nat) (i : Nat) : Option (List Nat) :=
  if i ≤ v.length then some (v.drop i) else none

/-- Phase 2 of `KernelDesc::specialize` (device.rs lines 524-545) on one
instruction of `types_global_values`: rewrite the literal operands of a
`SpecConstant` whose result id is decorated with a known `SpecId`.  The
two-literal (64-bit) arm reproduces the source's `[..8]` / `[9..]` split. -/
def specializeInst (specIds : List (Nat × Nat)) (spec_consts : List ScalarElem)
    (inst : Instruction) : Option Instruction :=
  if inst.opcode = Op.SpecConstant then
    match inst.result_id with
    | some rid =>
      match specIds.lookup rid with
      | some specId =>
        match spec_consts.get? specId with
        | some value =>
          match inst.operands with
          | [Operand.LiteralInt32 _] => do
            let w ← copyFromSlice4 value.asBytes
            pure { inst with operands := [Operand.LiteralInt32 w] }
          | [Operand.LiteralInt32 _, Operand.LiteralInt32 _] => do
            let lo ← sliceTo value.asBytes 8
            let wa ← copyFromSlice4 lo
            let hi ← sliceFrom value.asBytes 9
            let wb ← copyFromSlice4 hi
            pure { inst with operands := [Operand.LiteralInt32 wa, Operand.LiteralInt32 wb] }
          | _ => none
        | none => some inst
      | none => some inst
    | none => some inst
  else some inst

/-- device.rs `KernelDesc::specialize` (lines 508-553): collect SpecId
decorations, rewrite every decorated `SpecConstant`, reassemble, and return a
descriptor with cleared `spec_descs` and the given `threads`.  `none` models a
panic inside the rewrite. -/
def KernelDesc.specialize (d : KernelDesc) (threads : List Nat)
    (spec_consts : List ScalarElem) : Option KernelDesc := do
  let specIds := collectSpecIds d.spirv.annotationSection
  let tgv ← d.spirv.types_global_values.mapM (specializeInst specIds spec_consts)
  pure { d with
    spirv := { d.spirv with types_global_values := tgv }
    spec_descs := []
    threads := threads }

/-- A one-spec-constant descriptor used to exercise `specialize`: result id 1
is decorated `SpecId 0` and the spec constant has the given literal operands. -/
def specTestDesc (ops : List Operand) (st : ScalarType) : KernelDesc :=
  { name := "spec"
    spirv :=
      { annotationSection :=
          [⟨Op.Decorate, none,
            [Operand.IdRef 1, Operand.Decoration Decoration.SpecId, Operand.LiteralInt32 0]⟩]
        types_global_values := [⟨Op.SpecConstant, some 1, ops⟩] }
    features := Features.empty
    threads := [1]
    safe := true
    spec_descs := [⟨"c", st, none⟩]
    slice_descs := []
    push_descs := [] }

/-- C1 (code bug): a 32-bit spec constant is correctly rewritten from the 4
value bytes, but a 64-bit spec constant panics: the source splits
`value.as_bytes()` at `[..8]` / `[9..]` instead of `[..4]` / `[4..]`, so the
8-byte low slice cannot be copied into the 4-byte literal
(`copy_from_slice` length mismatch).  Evaluated at `U32 7` and `U64 5`. -/
theorem specialize_64bit_spec_constant_panics :
    (specTestDesc [Operand.LiteralInt32 0] ScalarType.u32).specialize [1] [ScalarElem.U32 7]
      = some { specTestDesc [Operand.LiteralInt32 7] ScalarType.u32 with spec_descs := [] }
    ∧ (specTestDesc [Operand.LiteralInt32 0, Operand.LiteralInt32 0] ScalarType.u64).specialize
        [1] [ScalarElem.U64 5] = none := by
  constructor
  · decide
  · decide

/-- C9: `specialize` is deterministic — equal descriptors, threads and spec
values give equal results, in particular byte-identical bytecode. -/
theorem specialize_deterministic (d₁ d₂ : KernelDesc) (t₁ t₂ : List Nat)
    (s₁ s₂ : List ScalarElem) (hd : d₁ = d₂) (ht : t₁ = t₂) (hs : s₁ = s₂) :
    d₁.specialize t₁ s₁ = d₂.specialize t₂ s₂
    ∧ (d₁.specialize t₁ s₁).map KernelDesc.spirv
        = (d₂.specialize t₂ s₂).map KernelDesc.spirv := by
  subst hd ht hs
  exact ⟨rfl, rfl⟩

/-- Witness for C9 at a concrete input. -/
theorem specialize_deterministic_witness :
    (specTestDesc [Operand.LiteralInt32 0] ScalarType.u32).specialize [1] [ScalarElem.U32 7]
      = (specTestDesc [Operand.LiteralInt32 0] ScalarType.u32).specialize [1] [ScalarElem.U32 7] :=
  (specialize_deterministic
    (specTestDesc [Operand.LiteralInt32 0] ScalarType.u32)
    (specTestDesc [Operand.LiteralInt32 0] ScalarType.u32)
    [1] [1] [ScalarElem.U32 7] [ScalarElem.U32 7] rfl rfl rfl).1

/-- `["x", "y", "z"][dim]` from the `bail!` in `KernelBuilder::specialize`:
`none` models the index panic for `dim > 2`. -/
def dimLetter (d : Nat) : Option String :=
  ["x", "y", "z"].get? d

/-- device.rs `KernelBuilder` (lines 579-584).  `id` is the artifact blob
address. -/
structure KernelBuilder where
  id : Nat
  desc : KernelDesc
  spec_consts : List ScalarElem
  threads : List Nat
  deriving DecidableEq, Repr

/-- The per-pair loop of `KernelBuilder::specialize` (device.rs lines 599-612):
assert matching scalar types, and for a `thread_dim`-tagged spec constant
require a nonzero `U32` and write it into `threads[dim]`.  Panics (assert,
unreachable, index out of bounds) and `bail!` are `Except.error`. -/
def specLoop : List (ScalarElem × SpecDesc) → List Nat → Except String (List Nat)
  | [], threads => .ok threads
  | (sc, sd) :: rest, threads =>
    if sc.scalar_type ≠ sd.scalar_type then
      .error "panic: assertion failed: spec_const.scalar_type() == spec_desc.scalar_type"
    else
      match sd.thread_dim with
      | some dim =>
        match sc with
        | ScalarElem.U32 v =>
          if v = 0 then
            match dimLetter dim with
            | some letter => .error ("threads." ++ letter ++ " cannot be zero!")
            | none => .error "panic: index out of bounds"
          else if dim < threads.length then specLoop rest (threads.set dim v)
          else .error "panic: index out of bounds"
        | _ => .error "panic: internal error: entered unreachable code"
      | none => specLoop rest threads

/-- device.rs `KernelBuilder::specialize` (lines 597-616): assert the arity,
run the loop, then replace the stored spec constants. -/
def KernelBuilder.specialize (b : KernelBuilder) (spec_consts : List ScalarElem) :
    Except String KernelBuilder :=
  if spec_consts.length ≠ b.desc.spec_descs.length then
    .error "panic: assertion failed: spec_consts.len() == self.desc.spec_descs.len()"
  else
    match specLoop (spec_consts.zip b.desc.spec_descs) b.threads with
    | .error e => .error e
    | .ok threads => .ok { b with threads := threads, spec_consts := spec_consts }

/-- A (value, descriptor) pair that passes every check of the loop: matching
types, and a thread-dim pair carries a nonzero `U32` targeting an index inside
`threads` (whose length is `n`). -/
def specPairOk (n : Nat) (p : ScalarElem × SpecDesc) : Prop :=
  p.1.scalar_type = p.2.scalar_type ∧
    ∀ d, p.2.thread_dim = some d → (∃ v, p.1 = ScalarElem.U32 v ∧ v ≠ 0) ∧ d < n

/-- The pure effect of one loop iteration on `threads`. -/
def applySpec (threads : List Nat) (p : ScalarElem × SpecDesc) : List Nat :=
  match p.2.thread_dim, p.1 with
  | some d, ScalarElem.U32 v => threads.set d v
  | _, _ => threads

theorem applySpec_length (t : List Nat) (p : ScalarElem × SpecDesc) :
    (applySpec t p).length = t.length := by
  unfold applySpec
  cases p.2.thread_dim <;> cases p.1 <;> simp

theorem foldl_applySpec_length (l : List (ScalarElem × SpecDesc)) (t : List Nat) :
    (l.foldl applySpec t).length = t.length := by
  induction l generalizing t with
  | nil => rfl
  | cons p rest ih => rw [List.foldl_cons, ih, applySpec_length]

theorem specLoop_append (pre rest : List (ScalarElem × SpecDesc)) (t : List Nat)
    (h : ∀ p ∈ pre, specPairOk t.length p) :
    specLoop (pre ++ rest) t = specLoop rest (pre.foldl applySpec t) := by
  induction pre generalizing t with
  | nil => rfl
  | cons p pre ih =>
    obtain ⟨sc, sd⟩ := p
    obtain ⟨htype, hdim⟩ := h (sc, sd) (by simp)
    rw [List.cons_append, specLoop, if_neg (by simpa using htype)]
    cases hsd : sd.thread_dim with
    | none =>
      have : applySpec t (sc, sd) = t := by
        unfold applySpec
        rw [hsd]
      rw [List.foldl_cons, this]
      exact ih t (fun q hq => h q (by simp [hq]))
    | some d =>
      obtain ⟨⟨v, hv, hv0⟩, hdlt⟩ := hdim d hsd
      subst hv
      dsimp only
      rw [if_neg hv0, if_pos (by simpa using hdlt)]
      have happ : applySpec t (ScalarElem.U32 v, sd) = t.set d v := by
        unfold applySpec
        rw [hsd]
      rw [List.foldl_cons, happ]
      refine ih (t.set d v) (fun q hq => ?_)
      have := h q (by simp [hq])
      simpa [specPairOk, List.length_set] using this

theorem foldl_applySpec_get_of_not_dim (l : List (ScalarElem × SpecDesc))
    (t : List Nat) (d : Nat) (h : ∀ p ∈ l, p.2.thread_dim ≠ some d) :
    (l.foldl applySpec t).get? d = t.get? d := by
  induction l generalizing t with
  | nil => rfl
  | cons p rest ih =>
    rw [List.foldl_cons, ih _ (fun q hq => h q (by simp [hq]))]
    unfold applySpec
    cases hsd : p.2.thread_dim with
    | none => rfl
    | some e =>
      cases p.1 <;> try rfl
      have hne : e ≠ d := by
        intro hed
        exact h p (by simp) (by rw [hsd, hed])
      simp [List.get?_eq_getElem?, List.getElem?_set_ne hne]

/-- C4: for a `specialize` call with correct arity and types, where the pair at
position `pre.length` carries `U32 v` against a descriptor with
`thread_dim = some d` (and the pairs before it pass their checks): `v = 0`
yields the error naming the dimension letter, and `v ≠ 0` (with the remaining
pairs also passing and not retargeting dimension `d`) produces a builder whose
`threads[d] = v` and whose spec constants are the supplied values. -/
theorem kernelBuilder_specialize_thread_dim (b : KernelBuilder)
    (specs : List ScalarElem) (pre post : List (ScalarElem × SpecDesc))
    (sd : SpecDesc) (d v : Nat)
    (hlen : specs.length = b.desc.spec_descs.length)
    (hsplit : specs.zip b.desc.spec_descs = pre ++ (ScalarElem.U32 v, sd) :: post)
    (hdim : sd.thread_dim = some d)
    (htype : sd.scalar_type = ScalarType.u32)
    (hpre : ∀ p ∈ pre, specPairOk b.threads.length p)
    (hd3 : d < 3) (hdlt : d < b.threads.length) :
    (v = 0 → ∃ letter, dimLetter d = some letter ∧
      b.specialize specs = .error ("threads." ++ letter ++ " cannot be zero!"))
    ∧ (v ≠ 0 →
        (∀ p ∈ post, specPairOk b.threads.length p ∧ p.2.thread_dim ≠ some d) →
        ∃ b2, b.specialize specs = .ok b2 ∧ b2.threads.get? d = some v
          ∧ b2.spec_consts = specs ∧ b2.desc = b.desc) := by
  have hloop : specLoop (specs.zip b.desc.spec_descs) b.threads
      = specLoop ((ScalarElem.U32 v, sd) :: post) (pre.foldl applySpec b.threads) := by
    rw [hsplit, specLoop_append pre _ b.threads hpre]
  have hprelen : (pre.foldl applySpec b.threads).length = b.threads.length :=
    foldl_applySpec_length pre b.threads
  constructor
  · intro hv0
    subst hv0
    obtain ⟨letter, hletter⟩ : ∃ letter, dimLetter d = some letter := by
      unfold dimLetter
      interval_cases d <;> exact ⟨_, rfl⟩
    refine ⟨letter, hletter, ?_⟩
    unfold KernelBuilder.specialize
    rw [if_neg (by omega), hloop, specLoop]
    rw [if_neg (by simp [ScalarElem.scalar_type, htype]), hdim]
    dsimp only
    rw [if_pos rfl, hletter]
  · intro hv0 hpost
    unfold KernelBuilder.specialize
    rw [if_neg (by omega), hloop, specLoop]
    rw [if_neg (by simp [ScalarElem.scalar_type, htype]), hdim]
    dsimp only
    rw [if_neg hv0, if_pos (by omega)]
    have hpost2 : ∀ p ∈ post, specPairOk ((pre.foldl applySpec b.threads).set d v).length p := by
      intro p hp
      have := (hpost p hp).1
      simpa [List.length_set, hprelen] using this
    rw [show specLoop post ((pre.foldl applySpec b.threads).set d v)
        = specLoop (post ++ []) ((pre.foldl applySpec b.threads).set d v) by rw [List.append_nil],
      specLoop_append post [] _ hpost2, specLoop]
    refine ⟨_, rfl, ?_, rfl, rfl⟩
    rw [foldl_applySpec_get_of_not_dim post _ d (fun p hp => (hpost p hp).2)]
    rw [List.get?_eq_getElem?, List.getElem?_set_self (by omega)]

/-- Witness for C4: a builder with one thread-dim spec constant, specialized
with `U32 128`, gets `threads[0] = 128`. -/
theorem kernelBuilder_specialize_thread_dim_witness :
    ∃ b2,
      ({ id := 0
         desc := { name := "k", spirv := ⟨[], []⟩, features := Features.empty
                   threads := [64], safe := true
                   spec_descs := [⟨"BLOCK", ScalarType.u32, some 0⟩]
                   slice_descs := [], push_descs := [] }
         spec_consts := [], threads := [64] } : KernelBuilder).specialize
          [ScalarElem.U32 128] = .ok b2
        ∧ b2.threads.get? 0 = some 128
        ∧ b2.spec_consts = [ScalarElem.U32 128] ∧
          b2.desc = { name := "k", spirv := ⟨[], []⟩, features := Features.empty
                      threads := [64], safe := true
                      spec_descs := [⟨"BLOCK", ScalarType.u32, some 0⟩]
                      slice_descs := [], push_descs := [] } :=
  (kernelBuilder_specialize_thread_dim
    { id := 0
      desc := { name := "k", spirv := ⟨[], []⟩, features := Features.empty
                threads := [64], safe := true
                spec_descs := [⟨"BLOCK", ScalarType.u32, some 0⟩]
                slice_descs := [], push_descs := [] }
      spec_consts := [], threads := [64] }
    [ScalarElem.U32 128] [] [] ⟨"BLOCK", ScalarType.u32, some 0⟩ 0 128
    rfl rfl rfl rfl (by intro p hp; cases hp) (by decide) (by decide)).2
    (by decide) (by intro p hp; cases hp)

/-- device.rs `DeviceInner`: the host sentinel or a device identified by its
engine (identity is pointer equality of the engine; modelled as an id). -/
inductive DeviceInner where
  | Host
  | Device (engineId : Nat)
  deriving DecidableEq, Repr

/-- device.rs `KernelKey` (lines 666-671): artifact id plus specialization
bytes. -/
structure KernelKey where
  id : Nat
  spec_bytes : List Nat
  deriving DecidableEq, Repr

/-- device.rs `Kernel` (lines 673-679): the engine-bound kernel with an
optional preset dispatch extent. -/
structure Kernel where
  desc : KernelDesc
  engineId : Nat
  groups : Option (List Nat)
  deriving DecidableEq, Repr

/-- device.rs `KernelBuilder::build` (lines 623-664), parametric in the engine
cache (`DeviceEngineKernel::cached` lives in the engine, outside src/): host
fails; unspecialized kernels with spec descriptors fail; otherwise the
specialization bytes are concatenated into the key and `cached` is consulted
with the appropriate descriptor builder. -/
def KernelBuilder.build (b : KernelBuilder) (device : DeviceInner)
    (cached : KernelKey → (Unit → Option KernelDesc) → Except String KernelDesc) :
    Except String Kernel :=
  match device with
  | .Host => .error ("Kernel `" ++ b.desc.name ++ "` expected device, found host!")
  | .Device engineId =>
    match (if b.desc.spec_descs ≠ [] then
        if b.spec_consts = [] then
          .error ("Kernel `" ++ b.desc.name ++ "` must be specialized!")
        else .ok ((b.spec_consts.map ScalarElem.asBytes).flatten)
      else (.ok [] : Except String (List Nat))) with
    | .error e => .error e
    | .ok spec_bytes =>
      let key : KernelKey := { id := b.id, spec_bytes := spec_bytes }
      match (if b.desc.spec_descs ≠ [] ∨ b.threads ≠ b.desc.threads then
          cached key (fun _ => b.desc.specialize b.threads b.spec_consts)
        else cached key (fun _ => some b.desc)) with
      | .error e => .error e
      | .ok inner => .ok { desc := inner, engineId := engineId, groups := none }

/-- C5: `build` on the host sentinel fails with the `expected device, found
host` error, and `build` of an unspecialized kernel whose descriptor has spec
constants fails with the `must be specialized` error; in both cases the result
is the same for every cache, i.e. no cache lookup or pipeline build is
consulted. -/
theorem kernelBuilder_build_errors (b : KernelBuilder) (engineId : Nat)
    (hspec : b.desc.spec_descs ≠ []) (hconsts : b.spec_consts = []) :
    (∀ cached, b.build .Host cached
      = .error ("Kernel `" ++ b.desc.name ++ "` expected device, found host!"))
    ∧ (∀ cached, b.build (.Device engineId) cached
      = .error ("Kernel `" ++ b.desc.name ++ "` must be specialized!"))
    ∧ (∀ cached₁ cached₂,
        b.build (.Device engineId) cached₁ = b.build (.Device engineId) cached₂) := by
  refine ⟨fun cached => rfl, fun cached => ?_, fun c₁ c₂ => ?_⟩
  · unfold KernelBuilder.build
    rw [if_pos hspec, if_pos hconsts]
  · unfold KernelBuilder.build
    rw [if_pos hspec, if_pos hconsts]

/-- Witness for C5 at a concrete unspecialized builder and cache. -/
theorem kernelBuilder_build_errors_witness :
    ({ id := 7
       desc := { name := "k", spirv := ⟨[], []⟩, features := Features.empty
                 threads := [64], safe := true
                 spec_descs := [⟨"BLOCK", ScalarType.u32, some 0⟩]
                 slice_descs := [], push_descs := [] }
       spec_consts := [], threads := [64] } : KernelBuilder).build (.Device 3)
        (fun _ _ => .error "cache miss")
      = .error "Kernel `k` must be specialized!" :=
  (kernelBuilder_build_errors
    { id := 7
      desc := { name := "k", spirv := ⟨[], []⟩, features := Features.empty
                threads := [64], safe := true
                spec_descs := [⟨"BLOCK", ScalarType.u32, some 0⟩]
                slice_descs := [], push_descs := [] }
      spec_consts := [], threads := [64] } 3 (by decide) rfl).2.1
    (fun _ _ => .error "cache miss")

/-- `gt / t + if gt % t != 0 { 1 } else { 0 }` with the Rust divide-by-zero
panic modelled as `none`. -/
def ceilDivU32 (gt t : Nat) : Option Nat :=
  if t = 0 then none
  else some (gt / t + if gt % t ≠ 0 then 1 else 0)

/-- One cell of the `groups` array after the rewrite loop of
`global_threads_to_groups`: the zipped dimensions get the (fallible) ceiling
quotient, the tail keeps its initial 1. -/
def groupCell (global_threads threads : List Nat) (i : Nat) : Option Nat :=
  match (global_threads.zip threads).get? i with
  | some p => ceilDivU32 p.1 p.2
  | none => some 1

/-- device.rs `global_threads_to_groups` (lines 681-692): start from `[1; 3]`
and overwrite each zipped dimension with the ceiling quotient.  The
`debug_assert_eq!` on the lengths and division by zero are panics (`none`). -/
def global_threads_to_groups (global_threads threads : List Nat) :
    Option (List Nat) :=
  if global_threads.length ≠ threads.length then none
  else (List.range 3).mapM (groupCell global_threads threads)

/-- device.rs `Kernel::global_threads` (lines 695-708): replace the preset
groups by the per-dimension ceiling division of the global threads. -/
def Kernel.global_threads (k : Kernel) (gt : List Nat) : Option Kernel :=
  match global_threads_to_groups gt k.desc.threads with
  | some groups => some { k with groups := some groups }
  | none => none

/-- device.rs `Kernel::groups` (lines 709-723): take the workgroup counts
directly, padding tail dimensions with 1.  The `debug_assert_eq!` on the
lengths and the `copy_from_slice` range panic for more than 3 dimensions are
`none`. -/
def Kernel.setGroups (k : Kernel) (groups : List Nat) : Option Kernel :=
  if groups.length ≠ k.desc.threads.length then none
  else if 3 < groups.length then none
  else some { k with groups := some (groups ++ List.replicate (3 - groups.length) 1) }


theorem mapM_eq_map_of_forall (l : List Nat) (f : Nat → Option Nat) (g : Nat → Nat)
    (h : ∀ i ∈ l, f i = some (g i)) : l.mapM f = some (l.map g) := by
  induction l with
  | nil => rfl
  | cons a l ih =>
    rw [List.mapM_cons, h a (by simp), ih (fun i hi => h i (by simp [hi]))]
    rfl

theorem ceil_div_formula (a t : Nat) (ht : 0 < t) :
    a / t + (if a % t ≠ 0 then 1 else 0) = (a + t - 1) / t := by
  rcases eq_or_ne (a % t) 0 with h | h
  · rw [if_neg (not_not_intro h)]
    obtain ⟨q, hq⟩ := Nat.dvd_of_mod_eq_zero h
    subst hq
    rw [Nat.mul_div_cancel_left _ ht]
    have h1 : t * q + t - 1 = t * q + (t - 1) := by omega
    rw [h1, Nat.mul_add_div ht, Nat.div_eq_of_lt (by omega)]
  · rw [if_pos h]
    have hd := Nat.div_add_mod a t
    have hr : a % t < t := Nat.mod_lt _ ht
    have h1 : a + t - 1 = t * (a / t + 1) + (a % t - 1) := by
      rw [Nat.mul_succ]
      omega
    rw [h1, Nat.mul_add_div ht]
    have h2 : (a % t - 1) / t = 0 := Nat.div_eq_of_lt (by omega)
    omega

/-- The value `groupCell` takes when it does not panic. -/
def groupCellVal (global_threads threads : List Nat) (i : Nat) : Nat :=
  match (global_threads.zip threads).get? i with
  | some p => p.1 / p.2 + if p.1 % p.2 ≠ 0 then 1 else 0
  | none => 1

theorem groupCell_eq_some (gt threads : List Nat)
    (hpos : ∀ t ∈ threads, 0 < t) (i : Nat) :
    groupCell gt threads i = some (groupCellVal gt threads i) := by
  unfold groupCell groupCellVal
  cases hz : (gt.zip threads).get? i with
  | none => rfl
  | some p =>
    rw [List.get?_eq_getElem?] at hz
    obtain ⟨ha, ht⟩ := List.getElem?_zip_eq_some.1 hz
    have htpos : 0 < p.2 := hpos p.2 (List.getElem?_mem ht)
    dsimp only
    unfold ceilDivU32
    rw [if_neg (by omega)]

/-- C6: `Kernel::global_threads` sets groups to the per-dimension ceiling
`⌈gt[i] / threads[i]⌉`, with unspecified tail dimensions 1, and
`Kernel::groups` takes the workgroup counts directly, padding tail dimensions
with 1; both produce a `[u32; 3]`-shaped extent. -/
theorem kernel_extent_setters (k : Kernel) (gt g : List Nat)
    (hlen : gt.length = k.desc.threads.length)
    (hle3 : k.desc.threads.length ≤ 3)
    (hpos : ∀ t ∈ k.desc.threads, 0 < t)
    (hglen : g.length = k.desc.threads.length) :
    (∃ gs, k.global_threads gt = some { k with groups := some gs }
      ∧ gs.length = 3
      ∧ (∀ i a t, gt.get? i = some a → k.desc.threads.get? i = some t →
          gs.get? i = some ((a + t - 1) / t))
      ∧ (∀ i, gt.length ≤ i → i < 3 → gs.get? i = some 1))
    ∧ k.setGroups g
        = some { k with groups := some (g ++ List.replicate (3 - g.length) 1) } := by
  constructor
  · refine ⟨(List.range 3).map (groupCellVal gt k.desc.threads), ?_, by simp, ?_, ?_⟩
    · unfold Kernel.global_threads global_threads_to_groups
      rw [if_neg (not_not_intro hlen),
        mapM_eq_map_of_forall _ _ _ (fun i _ => groupCell_eq_some gt k.desc.threads hpos i)]
    · intro i a t ha ht
      rw [List.get?_eq_getElem?] at ha ht
      have hi : i < 3 := by
        have : i < gt.length := (List.getElem?_eq_some_iff.1 ha).1
        omega
      rw [List.get?_eq_getElem?, List.getElem?_map, List.getElem?_range hi]
      have hz : (gt.zip k.desc.threads).get? i = some (a, t) := by
        rw [List.get?_eq_getElem?]
        exact List.getElem?_zip_eq_some.2 ⟨ha, ht⟩
      have htpos : 0 < t := hpos t (List.getElem?_mem ht)
      show some (groupCellVal gt k.desc.threads i) = some ((a + t - 1) / t)
      unfold groupCellVal
      rw [hz]
      dsimp only
      rw [ceil_div_formula a t htpos]
    · intro i hge hi
      rw [List.get?_eq_getElem?, List.getElem?_map, List.getElem?_range hi]
      have hz : (gt.zip k.desc.threads).get? i = none := by
        rw [List.get?_eq_getElem?, List.getElem?_eq_none_iff, List.length_zip]
        omega
      show some (groupCellVal gt k.desc.threads i) = some 1
      unfold groupCellVal
      rw [hz]
  · unfold Kernel.setGroups
    rw [if_neg (not_not_intro hglen), if_neg (by omega)]

/-- Witness for C6: `threads = [4, 2]`, `global_threads [10, 2]` gives a
3-dimensional extent with `groups[0] = ⌈10 / 4⌉`. -/
theorem kernel_extent_setters_witness :
    ∃ gs,
      ({ desc := { name := "k", spirv := ⟨[], []⟩, features := Features.empty
                   threads := [4, 2], safe := true, spec_descs := []
                   slice_descs := [], push_descs := [] }
         engineId := 0, groups := none } : Kernel).global_threads [10, 2]
        = some { desc := { name := "k", spirv := ⟨[], []⟩, features := Features.empty
                           threads := [4, 2], safe := true, spec_descs := []
                           slice_descs := [], push_descs := [] }
                 engineId := 0, groups := some gs }
      ∧ gs.length = 3 ∧ gs.get? 0 = some ((10 + 4 - 1) / 4) := by
  obtain ⟨⟨gs, hgs, hlen3, hget, _⟩, _⟩ := kernel_extent_setters
    { desc := { name := "k", spirv := ⟨[], []⟩, features := Features.empty
                threads := [4, 2], safe := true, spec_descs := []
                slice_descs := [], push_descs := [] }
      engineId := 0, groups := none } [10, 2] [1, 1]
    (by decide) (by decide) (by decide) (by decide)
  exact ⟨gs, hgs, hlen3, hget 0 10 4 rfl rfl⟩

/-- device.rs `KernelSliceArg` as `dispatch` consumes it: runtime scalar type,
mutability, the buffer's owning engine (`none` when host-sided), and the
view's element offset and length (offset is carried by the device buffer and
read engine-side). -/
structure KernelSliceArg where
  scalar_type : ScalarType
  mutable : Bool
  engine : Option Nat
  offset : Nat
  len : Nat
  deriving DecidableEq, Repr

/-- Rust `Debug` rendering of a `Vec<u32>`, used in the threads error. -/
def fmtNatList (l : List Nat) : String :=
  "[" ++ String.intercalate ", " (l.map toString) ++ "]"

/-- One iteration of the argument loop of `Kernel::dispatch` (device.rs lines
735-761): debug asserts on scalar type and mutability, host and foreign-engine
failures, then the running minimum of item-slice lengths. -/
def bindStep (kernelName : String) (engineId : Nat) (slice : KernelSliceArg)
    (slice_desc : SliceDesc) (items : Option Nat) : Except String (Option Nat) :=
  if slice.scalar_type ≠ slice_desc.scalar_type then
    .error "panic: debug assertion failed: slice.scalar_type() == slice_desc.scalar_type"
  else if slice_desc.mutable && !slice.mutable then
    .error "panic: debug assertion failed: !slice_desc.mutable || slice.mutable()"
  else
    match slice.engine with
    | none =>
      .error ("Kernel `" ++ kernelName ++ "`.`" ++ slice_desc.name
        ++ "` expected device, found host!")
    | some bufferEngine =>
      if bufferEngine ≠ engineId then
        .error ("Kernel `" ++ kernelName ++ "`.`" ++ slice_desc.name
          ++ "`, expected `Device(" ++ toString engineId ++ ")`, found Device("
          ++ toString bufferEngine ++ ")!")
      else
        .ok (if slice_desc.item then
            some (match items with
              | some items => min items slice.len
              | none => slice.len)
          else items)

/-- The argument loop of `Kernel::dispatch`: run `bindStep` on every pair,
collecting the `(offset, len)` view of each buffer in binding order. -/
def bindLoop (kernelName : String) (engineId : Nat) :
    List (KernelSliceArg × SliceDesc) → Option Nat →
    Except String (List (Nat × Nat) × Option Nat)
  | [], items => .ok ([], items)
  | (slice, slice_desc) :: rest, items =>
    match bindStep kernelName engineId slice slice_desc items with
    | .error e => .error e
    | .ok items =>
      match bindLoop kernelName engineId rest items with
      | .ok (views, items) => .ok ((slice.offset, slice.len) :: views, items)
      | .error e => .error e

/-- Extent resolution of `Kernel::dispatch` (device.rs lines 762-771): preset
groups win; otherwise the item minimum determines x (after rejecting
multi-dimensional workgroups), else the extent is unspecified. -/
def resolveGroups (kernelName : String) (preset : Option (List Nat))
    (items : Option Nat) (threads : List Nat) : Except String (List Nat) :=
  match preset with
  | some groups => .ok groups
  | none =>
    match items with
    | some items =>
      if (threads.drop 1).any (fun t => 1 < t) then
        .error ("Kernel `" ++ kernelName
          ++ "` cannot infer global_threads if threads.y > 1 or threads.z > 1, threads = "
          ++ fmtNatList threads ++ "!")
      else
        match threads.get? 0 with
        | some t0 =>
          match global_threads_to_groups [items % 2 ^ 32] [t0] with
          | some groups => .ok groups
          | none => .error "panic: divide by zero"
        | none => .error "panic: index out of bounds"
    | none =>
      .error ("Kernel `" ++ kernelName ++ "` global_threads or groups not provided!")

/-- The push-constant loop of `Kernel::dispatch` (device.rs lines 772-776):
debug assert on scalar type, then concatenate `as_bytes()` in order. -/
def pushLoop : List (ScalarElem × PushDesc) → Except String (List Nat)
  | [] => .ok []
  | (push, push_desc) :: rest =>
    if push.scalar_type ≠ push_desc.scalar_type then
      .error "panic: debug assertion failed: push.scalar_type() == push_desc.scalar_type"
    else
      match pushLoop rest with
      | .ok bytes => .ok (push.asBytes ++ bytes)
      | .error e => .error e

/-- Modelled from the spec: the engine half of the push-byte assembly
(`vulkan_engine.rs` is not under src/).  The user push bytes are padded with
zeros to a multiple of 4, followed by one `(u32 offset_in_elements,
u32 len_in_elements)` little-endian pair per bound slice, in binding order. -/
def enginePushBytes (user : List Nat) (views : List (Nat × Nat)) : List Nat :=
  user ++ List.replicate ((4 - user.length % 4) % 4) 0
    ++ (views.map (fun v => leBytes 4 (v.1 % 2 ^ 32) ++ leBytes 4 (v.2 % 2 ^ 32))).flatten

/-- device.rs `Kernel::dispatch` (lines 724-783) composed with the
spec-modelled engine push-byte completion: returns the dispatched groups and
the final push bytes handed to the pipeline. -/
def Kernel.dispatch (k : Kernel) (slices : List KernelSliceArg)
    (push_consts : List ScalarElem) : Except String (List Nat × List Nat) :=
  match bindLoop k.desc.name k.engineId (slices.zip k.desc.slice_descs) none with
  | .error e => .error e
  | .ok (views, items) =>
    match resolveGroups k.desc.name k.groups items k.desc.threads with
    | .error e => .error e
    | .ok groups =>
      match pushLoop (push_consts.zip k.desc.push_descs) with
      | .error e => .error e
      | .ok userBytes => .ok (groups, enginePushBytes userBytes views)

/-- A (slice, descriptor) pair that passes the binding checks of the loop. -/
def sliceArgOk (engineId : Nat) (p : KernelSliceArg × SliceDesc) : Prop :=
  p.1.scalar_type = p.2.scalar_type
    ∧ (p.2.mutable = true → p.1.mutable = true)
    ∧ p.1.engine = some engineId

/-- The running item minimum the loop folds. -/
def itemsFold (items : Option Nat) : List (KernelSliceArg × SliceDesc) → Option Nat
  | [] => items
  | (slice, slice_desc) :: rest =>
    itemsFold (if slice_desc.item then
        some (match items with
          | some items => min items slice.len
          | none => slice.len)
      else items) rest

/-- Lengths of the item-flagged slices, in binding order. -/
def itemLens (pairs : List (KernelSliceArg × SliceDesc)) : List Nat :=
  (pairs.filter (fun p => p.2.item)).map (fun p => p.1.len)

theorem bindLoop_ok (kn : String) (eid : Nat)
    (pairs : List (KernelSliceArg × SliceDesc)) (items : Option Nat)
    (hok : ∀ p ∈ pairs, sliceArgOk eid p) :
    bindLoop kn eid pairs items
      = .ok (pairs.map (fun p => (p.1.offset, p.1.len)), itemsFold items pairs) := by
  induction pairs generalizing items with
  | nil => rfl
  | cons p rest ih =>
    obtain ⟨slice, slice_desc⟩ := p
    obtain ⟨htype, hmut, hengine⟩ := hok (slice, slice_desc) (by simp)
    have hstep : bindStep kn eid slice slice_desc items
        = .ok (if slice_desc.item then
            some (match items with
              | some items => min items slice.len
              | none => slice.len)
          else items) := by
      unfold bindStep
      rw [if_neg (by simpa using htype)]
      rw [if_neg (by
        intro hc
        obtain ⟨h1, h2⟩ := Bool.and_eq_true_iff.1 hc
        rw [hmut (by simpa using h1)] at h2
        simp at h2)]
      rw [hengine]
      dsimp only
      rw [if_neg (by omega)]
    rw [bindLoop, hstep]
    dsimp only
    rw [ih _ (fun q hq => hok q (by simp [hq]))]
    rfl

theorem itemsFold_some (pairs : List (KernelSliceArg × SliceDesc)) (a : Nat) :
    itemsFold (some a) pairs = some ((itemLens pairs).foldl min a) := by
  induction pairs generalizing a with
  | nil => rfl
  | cons p rest ih =>
    obtain ⟨slice, slice_desc⟩ := p
    rw [itemsFold]
    cases hitem : slice_desc.item with
    | false =>
      rw [if_neg (by simp [hitem]), ih]
      unfold itemLens
      rw [List.filter_cons_of_neg (by simp [hitem])]
    | true =>
      rw [if_pos (by simp [hitem])]
      rw [ih]
      unfold itemLens
      rw [List.filter_cons_of_pos (by simp [hitem])]
      rfl

theorem itemsFold_none (pairs : List (KernelSliceArg × SliceDesc)) :
    itemsFold none pairs
      = match itemLens pairs with
        | [] => none
        | x :: xs => some (xs.foldl min x) := by
  induction pairs with
  | nil => rfl
  | cons p rest ih =>
    obtain ⟨slice, slice_desc⟩ := p
    rw [itemsFold]
    cases hitem : slice_desc.item with
    | false =>
      rw [if_neg (by simp [hitem]), ih]
      unfold itemLens
      rw [List.filter_cons_of_neg (by simp [hitem])]
    | true =>
      rw [if_pos (by simp [hitem])]
      rw [itemsFold_some]
      unfold itemLens
      rw [List.filter_cons_of_pos (by simp [hitem])]
      rfl

theorem foldl_min_le (l : List Nat) (a : Nat) :
    l.foldl min a ≤ a ∧ ∀ x ∈ l, l.foldl min a ≤ x := by
  induction l generalizing a with
  | nil => exact ⟨Nat.le_refl a, by simp⟩
  | cons b l ih =>
    rw [List.foldl_cons]
    obtain ⟨h1, h2⟩ := ih (min a b)
    refine ⟨Nat.le_trans h1 (Nat.min_le_left a b), ?_⟩
    intro x hx
    rcases List.mem_cons.1 hx with rfl | hx
    · exact Nat.le_trans h1 (Nat.min_le_right a _)
    · exact h2 x hx

theorem foldl_min_mem (l : List Nat) (a : Nat) :
    l.foldl min a = a ∨ l.foldl min a ∈ l := by
  induction l generalizing a with
  | nil => exact Or.inl rfl
  | cons b l ih =>
    rw [List.foldl_cons]
    rcases ih (min a b) with h | h
    · rcases min_choice a b with hm | hm
      · exact Or.inl (h.trans hm)
      · exact Or.inr (by rw [h, hm]; simp)
    · exact Or.inr (List.mem_cons_of_mem b h)

theorem pushLoop_ok (l : List (ScalarElem × PushDesc))
    (h : ∀ q ∈ l, q.1.scalar_type = q.2.scalar_type) :
    pushLoop l = .ok ((l.map (fun q => q.1.asBytes)).flatten) := by
  induction l with
  | nil => rfl
  | cons q rest ih =>
    obtain ⟨push, push_desc⟩ := q
    rw [pushLoop, if_neg (by simpa using h (push, push_desc) (by simp)),
      ih (fun q hq => h q (by simp [hq]))]
    rfl

theorem gtg_single (a t : Nat) (ht : 0 < t) :
    global_threads_to_groups [a] [t]
      = some [a / t + (if a % t ≠ 0 then 1 else 0), 1, 1] := by
  unfold global_threads_to_groups
  rw [if_neg (by simp)]
  have h0 : groupCell [a] [t] 0 = some (a / t + if a % t ≠ 0 then 1 else 0) := by
    show ceilDivU32 a t = _
    unfold ceilDivU32
    rw [if_neg (by omega)]
  have h1 : groupCell [a] [t] 1 = some 1 := rfl
  have h2 : groupCell [a] [t] 2 = some 1 := rfl
  rw [show List.range 3 = [0, 1, 2] from rfl]
  rw [List.mapM_cons, h0, List.mapM_cons, h1, List.mapM_cons, h2, List.mapM_nil]
  rfl

theorem le_ceil_mul (a t : Nat) (ht : 0 < t) : a ≤ (a + t - 1) / t * t := by
  rw [← ceil_div_formula a t ht]
  have hd := Nat.div_add_mod a t
  rcases eq_or_ne (a % t) 0 with h | h
  · rw [if_neg (not_not_intro h), Nat.add_zero]
    have h2 : a / t * t = t * (a / t) := Nat.mul_comm _ _
    omega
  · rw [if_pos h]
    have hr := Nat.mod_lt a ht
    have h2 : (a / t + 1) * t = t * (a / t) + t := by
      rw [Nat.succ_mul, Nat.mul_comm]
    omega

theorem itemLens_lt_of_small (slices : List KernelSliceArg)
    (descs : List SliceDesc) (hsmall : ∀ s ∈ slices, s.len < 2 ^ 32) :
    ∀ y ∈ itemLens (slices.zip descs), y < 2 ^ 32 := by
  intro y hy
  unfold itemLens at hy
  obtain ⟨p, hp, rfl⟩ := List.mem_map.1 hy
  have hp2 := (List.mem_filter.1 hp).1
  exact hsmall _ (List.of_mem_zip hp2).1

/-- C3: for a dispatch with no preset groups whose slices pass the binding
checks: when an item slice is bound, the inferred item count is the minimum of
the item-slice lengths; workgroups with `threads.y > 1` or `threads.z > 1`
fail with the error naming those dimensions, and otherwise the dispatch runs
with groups `[⌈items / threads[0]⌉, 1, 1]`, putting `global_threads.x` at or
above the minimum item-slice length.  Without any item slice, dispatch fails
with the `global_threads or groups not provided` error. -/
theorem dispatch_inferred_extent (k : Kernel) (slices : List KernelSliceArg)
    (push_consts : List ScalarElem) (t0 : Nat)
    (hgroups : k.groups = none)
    (hok : ∀ p ∈ slices.zip k.desc.slice_descs, sliceArgOk k.engineId p)
    (ht0 : k.desc.threads.get? 0 = some t0) (ht0pos : 0 < t0)
    (hsmall : ∀ s ∈ slices, s.len < 2 ^ 32)
    (hpush : ∀ q ∈ push_consts.zip k.desc.push_descs,
      q.1.scalar_type = q.2.scalar_type) :
    (itemLens (slices.zip k.desc.slice_descs) = [] →
      k.dispatch slices push_consts
        = .error ("Kernel `" ++ k.desc.name
          ++ "` global_threads or groups not provided!"))
    ∧ (itemLens (slices.zip k.desc.slice_descs) ≠ [] →
        ∃ m, (m ∈ itemLens (slices.zip k.desc.slice_descs)
              ∧ ∀ x ∈ itemLens (slices.zip k.desc.slice_descs), m ≤ x)
          ∧ ((k.desc.threads.drop 1).any (fun t => 1 < t) = true →
              k.dispatch slices push_consts
                = .error ("Kernel `" ++ k.desc.name
                  ++ "` cannot infer global_threads if threads.y > 1 or threads.z > 1, threads = "
                  ++ fmtNatList k.desc.threads ++ "!"))
          ∧ ((k.desc.threads.drop 1).any (fun t => 1 < t) = false →
              ∃ pushBytes,
                k.dispatch slices push_consts
                  = .ok ([(m + t0 - 1) / t0, 1, 1], pushBytes)
                ∧ m ≤ ((m + t0 - 1) / t0) * t0)) := by
  have hbind := bindLoop_ok k.desc.name k.engineId (slices.zip k.desc.slice_descs) none hok
  constructor
  · intro hIL
    have hitems : itemsFold none (slices.zip k.desc.slice_descs) = none := by
      rw [itemsFold_none, hIL]
    have hres : resolveGroups k.desc.name k.groups none k.desc.threads
        = .error ("Kernel `" ++ k.desc.name
          ++ "` global_threads or groups not provided!") := by
      unfold resolveGroups
      rw [hgroups]
    unfold Kernel.dispatch
    rw [hbind]
    dsimp only
    rw [hitems, hres]
  · intro hIL
    obtain ⟨x, xs, hIL2⟩ := List.exists_cons_of_ne_nil hIL
    have hitems : itemsFold none (slices.zip k.desc.slice_descs)
        = some (xs.foldl min x) := by
      rw [itemsFold_none, hIL2]
    refine ⟨xs.foldl min x, ⟨?_, ?_⟩, ?_, ?_⟩
    · rw [hIL2]
      rcases foldl_min_mem xs x with h | h
      · rw [h]
        simp
      · exact List.mem_cons_of_mem x h
    · intro y hy
      rw [hIL2] at hy
      obtain ⟨h1, h2⟩ := foldl_min_le xs x
      rcases List.mem_cons.1 hy with rfl | hy
      · exact h1
      · exact h2 y hy
    · intro hany
      have hres : resolveGroups k.desc.name k.groups (some (xs.foldl min x)) k.desc.threads
          = .error ("Kernel `" ++ k.desc.name
            ++ "` cannot infer global_threads if threads.y > 1 or threads.z > 1, threads = "
            ++ fmtNatList k.desc.threads ++ "!") := by
        unfold resolveGroups
        rw [hgroups]
        dsimp only
        rw [if_pos hany]
      unfold Kernel.dispatch
      rw [hbind]
      dsimp only
      rw [hitems, hres]
    · intro hany
      have hm32 : xs.foldl min x < 2 ^ 32 := by
        apply itemLens_lt_of_small slices k.desc.slice_descs hsmall
        rw [hIL2]
        rcases foldl_min_mem xs x with h | h
        · rw [h]
          simp
        · exact List.mem_cons_of_mem x h
      have hres : resolveGroups k.desc.name k.groups (some (xs.foldl min x)) k.desc.threads
          = .ok [(xs.foldl min x + t0 - 1) / t0, 1, 1] := by
        unfold resolveGroups
        rw [hgroups]
        dsimp only
        rw [if_neg (by rw [hany]; exact Bool.false_ne_true), ht0]
        dsimp only
        rw [Nat.mod_eq_of_lt hm32, gtg_single _ t0 ht0pos]
        dsimp only
        rw [ceil_div_formula _ t0 ht0pos]
      unfold Kernel.dispatch
      rw [hbind]
      dsimp only
      rw [hitems, hres]
      dsimp only
      rw [pushLoop_ok _ hpush]
      exact ⟨_, rfl, le_ceil_mul _ t0 ht0pos⟩

/-- Witness for C3: one item slice of length 3, `threads = [64]`, no preset
groups: dispatch runs with groups `[⌈3 / 64⌉, 1, 1]` covering the slice. -/
theorem dispatch_inferred_extent_witness :
    ∃ m pushBytes,
      ({ desc := { name := "copy", spirv := ⟨[], []⟩, features := Features.empty
                   threads := [64], safe := true, spec_descs := []
                   slice_descs := [⟨"y", ScalarType.f32, true, true⟩]
                   push_descs := [] }
         engineId := 0, groups := none } : Kernel).dispatch
          [⟨ScalarType.f32, true, some 0, 0, 3⟩] []
        = .ok ([(m + 64 - 1) / 64, 1, 1], pushBytes)
      ∧ m ≤ ((m + 64 - 1) / 64) * 64 := by
  obtain ⟨-, h2⟩ := dispatch_inferred_extent
    { desc := { name := "copy", spirv := ⟨[], []⟩, features := Features.empty
                threads := [64], safe := true, spec_descs := []
                slice_descs := [⟨"y", ScalarType.f32, true, true⟩]
                push_descs := [] }
      engineId := 0, groups := none }
    [⟨ScalarType.f32, true, some 0, 0, 3⟩] [] 64
    rfl
    (by
      intro p hp
      simp only [List.zip_cons_cons, List.zip_nil_right, List.mem_singleton] at hp
      subst hp
      exact ⟨rfl, fun _ => rfl, rfl⟩)
    rfl (by decide) (by decide) (by decide)
  obtain ⟨m, -, -, h3⟩ := h2 (by decide)
  obtain ⟨pb, hpb, hle⟩ := h3 (by decide)
  exact ⟨m, pb, hpb, hle⟩

theorem pushBytes_length (pcs : List ScalarElem) (descs : List PushDesc)
    (hlen : pcs.length = descs.length)
    (htypes : ∀ q ∈ pcs.zip descs, q.1.scalar_type = q.2.scalar_type) :
    (((pcs.zip descs).map (fun q => q.1.asBytes)).flatten).length
      = (descs.map (fun p => p.scalar_type.size)).sum := by
  induction pcs generalizing descs with
  | nil =>
    cases descs with
    | nil => rfl
    | cons d ds => simp at hlen
  | cons c cs ih =>
    cases descs with
    | nil => simp at hlen
    | cons d ds =>
      rw [List.zip_cons_cons, List.map_cons, List.flatten_cons, List.length_append,
        List.map_cons, List.sum_cons, asBytes_length,
        htypes (c, d) (by simp),
        ih ds (by simpa using hlen) (fun q hq => htypes q (by simp [hq]))]

theorem flatten_map_length_const {α : Type} (f : α → List Nat) (c : Nat)
    (hf : ∀ v, (f v).length = c) (l : List α) :
    ((l.map f).flatten).length = c * l.length := by
  induction l with
  | nil => simp
  | cons v rest ih =>
    rw [List.map_cons, List.flatten_cons, List.length_append, hf, ih,
      List.length_cons, Nat.mul_succ]
    omega

theorem flatten_map_drop_const {α : Type} (f : α → List Nat) (c : Nat)
    (hf : ∀ v, (f v).length = c) (l : List α) (i : Nat) :
    ((l.map f).flatten).drop (c * i) = ((l.drop i).map f).flatten := by
  induction i generalizing l with
  | zero => simp
  | succ i ih =>
    cases l with
    | nil => simp
    | cons v rest =>
      rw [List.map_cons, List.flatten_cons]
      have hc : c * (i + 1) = c + c * i := by
        rw [Nat.mul_succ]
        omega
      rw [hc, List.drop_add, List.drop_left' (hf v), ih, List.drop_succ_cons]

theorem flatten_map_take_at {α : Type} (f : α → List Nat) (c : Nat)
    (hf : ∀ v, (f v).length = c) (l : List α) (i : Nat) (v : α)
    (hv : l.get? i = some v) :
    (((l.drop i).map f).flatten).take c = f v := by
  induction i generalizing l with
  | zero =>
    cases l with
    | nil => simp at hv
    | cons a rest =>
      have : a = v := by simpa using hv
      subst this
      rw [List.drop_zero, List.map_cons, List.flatten_cons, List.take_left' (hf a)]
  | succ i ih =>
    cases l with
    | nil => simp at hv
    | cons a rest =>
      rw [List.drop_succ_cons]
      exact ih rest (by simpa using hv)

/-- C2: under a preset extent, a dispatch whose arguments pass the binding and
type checks hands the engine push bytes laid out as: the `as_bytes()` of each
push constant in declaration order, zero-padded to a multiple of 4, followed
by one `(u32 offset_in_elements, u32 len_in_elements)` little-endian pair per
bound slice in binding order; the total length is
`round_up_4(Σ push sizes) + 8·N` and the i-th pair sits at byte offset
`round_up_4(Σ push sizes) + 8·i`. -/
theorem dispatch_push_byte_layout (k : Kernel) (slices : List KernelSliceArg)
    (push_consts : List ScalarElem) (g : List Nat)
    (hgroups : k.groups = some g)
    (hslen : slices.length = k.desc.slice_descs.length)
    (hok : ∀ p ∈ slices.zip k.desc.slice_descs, sliceArgOk k.engineId p)
    (hplen : push_consts.length = k.desc.push_descs.length)
    (hpush : ∀ q ∈ push_consts.zip k.desc.push_descs,
      q.1.scalar_type = q.2.scalar_type) :
    ∃ bytes,
      k.dispatch slices push_consts = .ok (g, bytes)
      ∧ bytes = ((push_consts.zip k.desc.push_descs).map (fun q => q.1.asBytes)).flatten
          ++ List.replicate
              ((4 - (k.desc.push_descs.map (fun p => p.scalar_type.size)).sum % 4) % 4) 0
          ++ ((slices.map (fun s => (s.offset, s.len))).map
              (fun v => leBytes 4 (v.1 % 2 ^ 32) ++ leBytes 4 (v.2 % 2 ^ 32))).flatten
      ∧ bytes.length
          = ((k.desc.push_descs.map (fun p => p.scalar_type.size)).sum + 3) / 4 * 4
            + 8 * slices.length
      ∧ ∀ i s, slices.get? i = some s →
          ((bytes.drop
            (((k.desc.push_descs.map (fun p => p.scalar_type.size)).sum + 3) / 4 * 4
              + 8 * i)).take 8)
            = leBytes 4 (s.offset % 2 ^ 32) ++ leBytes 4 (s.len % 2 ^ 32) := by
  have hbind := bindLoop_ok k.desc.name k.engineId (slices.zip k.desc.slice_descs) none hok
  have hviews : (slices.zip k.desc.slice_descs).map (fun p => (p.1.offset, p.1.len))
      = slices.map (fun s => (s.offset, s.len)) := by
    have h1 : (slices.zip k.desc.slice_descs).map Prod.fst = slices :=
      List.map_fst_zip _ _ (by omega)
    have h2 := congrArg (List.map (fun s : KernelSliceArg => (s.offset, s.len))) h1
    rw [List.map_map] at h2
    exact h2
  have hres : resolveGroups k.desc.name (some g)
      (itemsFold none (slices.zip k.desc.slice_descs)) k.desc.threads = .ok g := rfl
  have hUlen : (((push_consts.zip k.desc.push_descs).map (fun q => q.1.asBytes)).flatten).length
      = (k.desc.push_descs.map (fun p => p.scalar_type.size)).sum :=
    pushBytes_length push_consts k.desc.push_descs hplen hpush
  have henc : ∀ v : Nat × Nat,
      (leBytes 4 (v.1 % 2 ^ 32) ++ leBytes 4 (v.2 % 2 ^ 32)).length = 8 := by
    intro v
    rw [List.length_append, leBytes_length, leBytes_length]
  unfold Kernel.dispatch
  rw [hbind]
  dsimp only
  rw [hgroups, hres]
  dsimp only
  rw [pushLoop_ok _ hpush]
  dsimp only
  rw [hviews]
  refine ⟨_, rfl, ?_, ?_, ?_⟩
  · unfold enginePushBytes
    rw [hUlen]
  · unfold enginePushBytes
    rw [List.length_append, List.length_append, hUlen, List.length_replicate,
      flatten_map_length_const _ 8 henc, List.length_map]
    omega
  · intro i s hs
    unfold enginePushBytes
    rw [hUlen]
    have hPlen : ((((push_consts.zip k.desc.push_descs).map
          (fun q : ScalarElem × PushDesc => q.1.asBytes)).flatten)
        ++ List.replicate
            ((4 - (k.desc.push_descs.map
              (fun p : PushDesc => p.scalar_type.size)).sum % 4) % 4) 0).length
        = ((k.desc.push_descs.map
            (fun p : PushDesc => p.scalar_type.size)).sum + 3) / 4 * 4 := by
      rw [List.length_append, hUlen, List.length_replicate]
      omega
    rw [List.drop_add, List.drop_left' hPlen]
    have h8 : (8 : Nat) * i = 8 * i := rfl
    rw [flatten_map_drop_const _ 8 henc]
    have hvi : (slices.map (fun s => (s.offset, s.len))).get? i = some (s.offset, s.len) := by
      rw [List.get?_eq_getElem?, List.getElem?_map, ← List.get?_eq_getElem?, hs]
      rfl
    exact flatten_map_take_at _ 8 henc _ i (s.offset, s.len) hvi

/-- Witness for C2: one `f32` push constant and one bound slice with offset 1
and length 3: the push bytes are the 4 value bytes followed by the two u32
pairs, 12 bytes total, with the pair at offset 4. -/
theorem dispatch_push_byte_layout_witness :
    ∃ bytes,
      ({ desc := { name := "saxpy", spirv := ⟨[], []⟩, features := Features.empty
                   threads := [64], safe := true, spec_descs := []
                   slice_descs := [⟨"x", ScalarType.f32, false, true⟩]
                   push_descs := [⟨"alpha", ScalarType.f32⟩] }
         engineId := 0, groups := some [1, 1, 1] } : Kernel).dispatch
          [⟨ScalarType.f32, false, some 0, 1, 3⟩] [ScalarElem.F32 1065353216]
        = .ok ([1, 1, 1], bytes)
      ∧ bytes.length = 12
      ∧ (bytes.drop 4).take 8 = leBytes 4 1 ++ leBytes 4 3 := by
  obtain ⟨bytes, hdisp, -, hlen, hpair⟩ := dispatch_push_byte_layout
    { desc := { name := "saxpy", spirv := ⟨[], []⟩, features := Features.empty
                threads := [64], safe := true, spec_descs := []
                slice_descs := [⟨"x", ScalarType.f32, false, true⟩]
                push_descs := [⟨"alpha", ScalarType.f32⟩] }
      engineId := 0, groups := some [1, 1, 1] }
    [⟨ScalarType.f32, false, some 0, 1, 3⟩] [ScalarElem.F32 1065353216] [1, 1, 1]
    rfl rfl
    (by
      intro p hp
      simp only [List.zip_cons_cons, List.zip_nil_right, List.mem_singleton] at hp
      subst hp
      exact ⟨rfl, fun h => by simpa using h, rfl⟩)
    rfl
    (by
      intro q hq
      simp only [List.zip_cons_cons, List.zip_nil_right, List.mem_singleton] at hq
      subst hq
      rfl)
  refine ⟨bytes, hdisp, by simpa using hlen, ?_⟩
  have := hpair 0 ⟨ScalarType.f32, false, some 0, 1, 3⟩ rfl
  simpa using this

/-- krnl-core buffer.rs `SliceRepr` on the host (non-spirv) side: a borrowed
slice of elements. -/
structure SliceRepr (T : Type) where
  inner : List T

/-- buffer.rs `SliceRepr::len` host path (lines 98-100). -/
def SliceRepr.len {T : Type} (s : SliceRepr T) : Nat :=
  s.inner.length

/-- buffer.rs `SliceRepr::index` host path (lines 110-112): delegates to
standard slice indexing, which panics (`none`) out of bounds. -/
def SliceRepr.index {T : Type} (s : SliceRepr T) (i : Nat) : Option T :=
  s.inner.get? i

/-- krnl-core buffer.rs `UnsafeSliceRepr` host side: a raw pointer (modelled
as the pointed-to elements) and a stored length. -/
structure UnsafeSliceRepr (T : Type) where
  ptr : List T
  len : Nat

/-- buffer.rs `UnsafeSliceRepr::unsafe_index` host path (lines 152-161): the
bounds check runs even here; in bounds it reads `*ptr.add(index)`, out of
bounds it panics (`none`). -/
def UnsafeSliceRepr.rawIndex {T : Type} (s : UnsafeSliceRepr T) (i : Nat) : Option T :=
  if i < s.len then s.ptr.get? i else none

/-- buffer.rs `UnsafeSliceRepr::unsafe_index_mut` host path (lines 172-181),
as a write through the returned reference: bounds-checked, then the element at
`index` is replaced. -/
def UnsafeSliceRepr.rawIndexMut {T : Type} (s : UnsafeSliceRepr T) (i : Nat) (v : T) :
    Option (UnsafeSliceRepr T) :=
  if i < s.len then some { s with ptr := s.ptr.set i v } else none

/-- buffer.rs `BufferBase` (line 195): the typed wrapper around a data
representation. -/
structure BufferBase (S : Type) where
  data : S

/-- buffer.rs `Index for BufferBase` (lines 211-216), host `Slice`. -/
def BufferBase.index {T : Type} (b : BufferBase (SliceRepr T)) (i : Nat) : Option T :=
  b.data.index i

/-- buffer.rs `UnsafeIndex for BufferBase` (lines 218-226), `unsafe_index`. -/
def BufferBase.rawIndex {T : Type} (b : BufferBase (UnsafeSliceRepr T)) (i : Nat) :
    Option T :=
  b.data.rawIndex i

/-- buffer.rs `UnsafeIndex for BufferBase` (lines 218-226), `unsafe_index_mut`
as a write. -/
def BufferBase.rawIndexMut {T : Type} (b : BufferBase (UnsafeSliceRepr T)) (i : Nat)
    (v : T) : Option (BufferBase (UnsafeSliceRepr T)) :=
  match b.data.rawIndexMut i v with
  | some d => some { data := d }
  | none => none

/-- C10: host-side indexing is bounds-checked on every path.  `Slice` via
`Index` returns the element at `i` for `i < len` and panics otherwise;
`UnsafeSlice` via `unsafe_index` / `unsafe_index_mut` performs the same check
even though the read itself is raw.  `hu` is the pointer validity invariant of
a host `UnsafeSliceRepr` (the pointer spans `len` elements). -/
theorem host_slice_indexing_bounds {T : Type} (s : BufferBase (SliceRepr T))
    (u : BufferBase (UnsafeSliceRepr T)) (i : Nat)
    (hu : u.data.ptr.length = u.data.len) :
    (i < s.data.len → ∃ x, s.index i = some x ∧ s.data.inner.get? i = some x)
    ∧ (s.data.len ≤ i → s.index i = none)
    ∧ (i < u.data.len → ∃ x, u.rawIndex i = some x ∧ u.data.ptr.get? i = some x)
    ∧ (u.data.len ≤ i → u.rawIndex i = none)
    ∧ (∀ v, i < u.data.len → ∃ u2, u.rawIndexMut i v = some u2
        ∧ u2.data.ptr = u.data.ptr.set i v ∧ u2.data.len = u.data.len)
    ∧ (∀ v, u.data.len ≤ i → u.rawIndexMut i v = none) := by
  refine ⟨?_, ?_, ?_, ?_, ?_, ?_⟩
  · intro hi
    have hlt : i < s.data.inner.length := hi
    cases hg : s.data.inner.get? i with
    | none =>
      rw [List.get?_eq_getElem?, List.getElem?_eq_none_iff] at hg
      omega
    | some x => exact ⟨x, hg, rfl⟩
  · intro hi
    unfold BufferBase.index SliceRepr.index
    rw [List.get?_eq_getElem?, List.getElem?_eq_none_iff]
    exact hi
  · intro hi
    have hlt : i < u.data.ptr.length := by omega
    cases hg : u.data.ptr.get? i with
    | none =>
      rw [List.get?_eq_getElem?, List.getElem?_eq_none_iff] at hg
      omega
    | some x =>
      refine ⟨x, ?_, rfl⟩
      unfold BufferBase.rawIndex UnsafeSliceRepr.rawIndex
      rw [if_pos hi]
      exact hg
  · intro hi
    unfold BufferBase.rawIndex UnsafeSliceRepr.rawIndex
    rw [if_neg (by omega)]
  · intro v hi
    refine ⟨{ data := { u.data with ptr := u.data.ptr.set i v } }, ?_, rfl, rfl⟩
    unfold BufferBase.rawIndexMut UnsafeSliceRepr.rawIndexMut
    rw [if_pos hi]
  · intro v hi
    unfold BufferBase.rawIndexMut UnsafeSliceRepr.rawIndexMut
    rw [if_neg (by omega)]

/-- Witness for C10: on `[10, 20, 30]`, index 1 reads 20 on both paths and
index 5 panics on both paths. -/
theorem host_slice_indexing_bounds_witness :
    ({ data := { inner := [10, 20, 30] } } : BufferBase (SliceRepr Nat)).index 1 = some 20
    ∧ ({ data := { inner := [10, 20, 30] } } : BufferBase (SliceRepr Nat)).index 5 = none
    ∧ ({ data := { ptr := [10, 20, 30], len := 3 } } :
        BufferBase (UnsafeSliceRepr Nat)).rawIndex 1 = some 20
    ∧ ({ data := { ptr := [10, 20, 30], len := 3 } } :
        BufferBase (UnsafeSliceRepr Nat)).rawIndex 5 = none := by
  obtain ⟨h1, -, h3, -, -, -⟩ := host_slice_indexing_bounds (T := Nat)
    ⟨⟨[10, 20, 30]⟩⟩ ⟨⟨[10, 20, 30], 3⟩⟩ 1 rfl
  obtain ⟨-, h2, -, h4, -, -⟩ := host_slice_indexing_bounds (T := Nat)
    ⟨⟨[10, 20, 30]⟩⟩ ⟨⟨[10, 20, 30], 3⟩⟩ 5 rfl
  obtain ⟨x, hx, hx2⟩ := h1 (by decide)
  obtain ⟨y, hy, hy2⟩ := h3 (by decide)
  have hx20 : 20 = x := by simpa using hx2
  have hy20 : 20 = y := by simpa using hy2
  subst hx20
  subst hy20
  exact ⟨hx, h2 (by decide), hy, h4 (by decide)⟩
